import Mathlib

/-!
Verification development for the music-diary application (`src/App.tsx`,
`src/unnamed/part_000` = `MemoryCard.tsx`, `src/unnamed/part_001` =
`geminiService.tsx`).

The data model and the operations below are shallow embeddings of the
TypeScript source.  Host-environment services (the wall clock `Date.now()`,
the `Date` constructor's year/month/day arithmetic, the Gemini network calls,
and `localStorage`) are modelled as explicit inputs threaded through a
`CreateEnv` record, exactly at the points where the source consults them.
`JSON.stringify` / `JSON.parse` are modelled by an executable renderer and an
executable recursive-descent parser over a `Json` value type covering the
fragment the application writes (null, booleans, integers, strings, arrays,
objects); the renderer's string escaping is a simplified but invertible
variant of the host's (it quotes `"` and backslash and leaves other
characters literal), which does not affect any property stated here.
-/

namespace MusicDiary

/-- Language type from `types.ts` (`export type Language = 'ja' | 'en'`). -/
inductive Language where
  | ja
  | en
deriving DecidableEq, Repr

/-- User feedback state from `types.ts` (`userFeedback?: 'correct' | 'incorrect' | null`). -/
inductive UserFeedback where
  | correct
  | incorrect
deriving DecidableEq, Repr

/-- Song reference from `types.ts` (`UserSongInput`). -/
structure UserSongInput where
  title : String
  artist : String
deriving DecidableEq, Repr

/-- Analysis payload from `types.ts` (`AnalysisResult`). -/
structure AnalysisResult where
  inferredEmotion : String
  analysisText : String
  moodColor : String
  imagePrompt : String
deriving DecidableEq, Repr

/-- One diary record, from `types.ts` (`Memory`).  `timestamp` is the
millisecond instant produced by `targetDate.getTime()`; records created by
`handleAnalyze` always set every field (`userFeedback: null`), so the
optional fields are carried as total fields here. -/
structure Memory where
  id : String
  content : String
  moodScore : Int
  moodTags : List String
  timestamp : Int
  song : UserSongInput
  analysis : AnalysisResult
  imageUrl : String
  userFeedback : Option UserFeedback
  language : Language
deriving DecidableEq, Repr

/-- Whitespace predicate used to model JavaScript `String.prototype.trim`
(the common ASCII whitespace characters; the app only tests emptiness of the
trimmed string). -/
def jsWhitespace (c : Char) : Bool :=
  c = ' ' || c = '\t' || c = '\n' || c = '\r' || c = '\x0b' || c = '\x0c'

/-- Model of JavaScript `String.prototype.trim`: drop whitespace from both
ends.  Used by the guard `if (!songTitle.trim() || !artistName.trim())`
at `App.tsx` line 127. -/
def jsTrim (s : String) : String :=
  String.mk (((s.data.dropWhile jsWhitespace).reverse.dropWhile jsWhitespace).reverse)

/-- Decimal digit character for a value below ten. -/
def digitCh (d : Nat) : Char :=
  match d with
  | 0 => '0' | 1 => '1' | 2 => '2' | 3 => '3' | 4 => '4'
  | 5 => '5' | 6 => '6' | 7 => '7' | 8 => '8' | _ => '9'

/-- Reads a decimal digit character back to its value. -/
def charToDigit (c : Char) : Option Nat :=
  if c = '0' then some 0 else if c = '1' then some 1 else if c = '2' then some 2
  else if c = '3' then some 3 else if c = '4' then some 4 else if c = '5' then some 5
  else if c = '6' then some 6 else if c = '7' then some 7 else if c = '8' then some 8
  else if c = '9' then some 9 else none

/-- Fuelled most-significant-first decimal digit expansion (the fuel makes the
recursion structural so the kernel can evaluate it; `n + 1` fuel always
suffices). -/
def toDigitsAux : Nat → Nat → List Char
  | 0, _ => []
  | fuel + 1, n =>
    if n < 10 then [digitCh n] else toDigitsAux fuel (n / 10) ++ [digitCh (n % 10)]

/-- Decimal digit list of a natural number, most significant first. -/
def natToDigits (n : Nat) : List Char :=
  toDigitsAux (n + 1) n

/-- Model of JavaScript `Number.prototype.toString` (base ten) on a
non-negative integer, as used by `Date.now().toString()` at `App.tsx`
line 149. -/
def natToString (n : Nat) : String :=
  String.mk (natToDigits n)

mutual
/-- JSON value tree: the fragment of JSON that `JSON.stringify` produces for
the app's data (numbers restricted to integers, which covers `timestamp`,
`moodScore` and anything the app ever writes). -/
inductive Json where
  | null : Json
  | bool (b : Bool) : Json
  | num (n : Int) : Json
  | str (s : String) : Json
  | arr (xs : JsonList) : Json
  | obj (fields : JsonObj) : Json
/-- Element list of a JSON array (kept as its own inductive so mutual
structural recursion and induction stay straightforward). -/
inductive JsonList where
  | nil : JsonList
  | cons (hd : Json) (tl : JsonList) : JsonList
/-- Field list of a JSON object, in insertion order (as `JSON.stringify`
serializes plain objects). -/
inductive JsonObj where
  | nil : JsonObj
  | cons (key : String) (val : Json) (tl : JsonObj) : JsonObj
end

/-- String-body escaping for the renderer: quote `"` and backslash, leave
other characters literal. -/
def escapeChars : List Char → List Char
  | [] => []
  | c :: cs =>
    if c = '"' ∨ c = '\\' then '\\' :: c :: escapeChars cs else c :: escapeChars cs

/-- Decimal rendering of an integer (minus sign for negatives). -/
def renderInt (i : Int) : List Char :=
  if i < 0 then '-' :: natToDigits i.natAbs else natToDigits i.natAbs

/-- Keyword characters of the JSON literal `null`. -/
def kwNull : List Char := ['n', 'u', 'l', 'l']

/-- Keyword characters of the JSON literal `true`. -/
def kwTrue : List Char := ['t', 'r', 'u', 'e']

/-- Keyword characters of the JSON literal `false`. -/
def kwFalse : List Char := ['f', 'a', 'l', 's', 'e']

mutual
/-- Character stream of the JSON serialization of a value (model of
`JSON.stringify`, no insignificant whitespace). -/
def Json.renderChars : Json → List Char
  | .null => kwNull
  | .bool true => kwTrue
  | .bool false => kwFalse
  | .num i => renderInt i
  | .str s => '"' :: (escapeChars s.data ++ ['"'])
  | .arr xs => '[' :: (JsonList.renderChars xs ++ [']'])
  | .obj xs => '{' :: (JsonObj.renderChars xs ++ ['}'])
/-- Comma-separated serialization of array elements. -/
def JsonList.renderChars : JsonList → List Char
  | .nil => []
  | .cons x .nil => Json.renderChars x
  | .cons x (.cons y tl) =>
      Json.renderChars x ++ (',' :: JsonList.renderChars (.cons y tl))
/-- Comma-separated serialization of object fields (`"key":value`). -/
def JsonObj.renderChars : JsonObj → List Char
  | .nil => []
  | .cons k v .nil =>
      '"' :: (escapeChars k.data ++ ('"' :: (':' :: Json.renderChars v)))
  | .cons k v (.cons k2 v2 tl) =>
      '"' :: (escapeChars k.data ++
        ('"' :: (':' :: (Json.renderChars v ++
          (',' :: JsonObj.renderChars (.cons k2 v2 tl))))))
end

/-- JSON serialization of a value to a string. -/
def Json.render (j : Json) : String :=
  String.mk j.renderChars

/-- Parses a string-literal body (after the opening quote) up to the closing
quote, undoing `escapeChars`. -/
def parseStrBody : List Char → Option (List Char × List Char)
  | [] => none
  | c :: rest =>
    if c = '"' then some ([], rest)
    else if c = '\\' then
      match rest with
      | [] => none
      | d :: rest2 =>
        match parseStrBody rest2 with
        | some (s, r) => some (d :: s, r)
        | none => none
    else
      match parseStrBody rest with
      | some (s, r) => some (c :: s, r)
      | none => none

/-- Consumes a maximal run of decimal digits, accumulating their value. -/
def parseDigits : List Char → Nat → Nat × List Char
  | [], acc => (acc, [])
  | c :: rest, acc =>
    match charToDigit c with
    | some d => parseDigits rest (acc * 10 + d)
    | none => (acc, c :: rest)

/-- Parses a non-empty run of decimal digits into a natural number. -/
def parseNat : List Char → Option (Nat × List Char)
  | [] => none
  | c :: rest =>
    match charToDigit c with
    | some d => some (parseDigits rest d)
    | none => none

/-- Parser mode: a full value, the tail of a non-empty array, or the tail of
a non-empty object. -/
inductive PMode where
  | val
  | arrElems
  | objFields
deriving DecidableEq

/-- Parser result wrapper, matching the three modes. -/
inductive PRes where
  | v (j : Json)
  | l (xs : JsonList)
  | o (xs : JsonObj)

/-- Fuelled recursive-descent JSON parser (model of `JSON.parse` on the
fragment described at `Json`; one fuel unit is spent per nesting/element
step, and `length + 1` fuel always suffices for input it can accept). -/
def parseF : Nat → PMode → List Char → Option (PRes × List Char)
  | 0, _, _ => none
  | fuel + 1, .val, cs =>
    (match cs with
     | [] => none
     | c :: rest =>
       if c = 'n' then
         match rest with
         | 'u' :: 'l' :: 'l' :: r => some (.v .null, r)
         | _ => none
       else if c = 't' then
         match rest with
         | 'r' :: 'u' :: 'e' :: r => some (.v (.bool true), r)
         | _ => none
       else if c = 'f' then
         match rest with
         | 'a' :: 'l' :: 's' :: 'e' :: r => some (.v (.bool false), r)
         | _ => none
       else if c = '"' then
         match parseStrBody rest with
         | some (s, r) => some (.v (.str (String.mk s)), r)
         | none => none
       else if c = '[' then
         match rest with
         | ']' :: r => some (.v (.arr .nil), r)
         | _ =>
           match parseF fuel .arrElems rest with
           | some (.l xs, r) => some (.v (.arr xs), r)
           | _ => none
       else if c = '{' then
         match rest with
         | '}' :: r => some (.v (.obj .nil), r)
         | _ =>
           match parseF fuel .objFields rest with
           | some (.o xs, r) => some (.v (.obj xs), r)
           | _ => none
       else if c = '-' then
         match parseNat rest with
         | some (n, r) => some (.v (.num (-(n : Int))), r)
         | none => none
       else
         match charToDigit c with
         | some _ =>
           match parseNat (c :: rest) with
           | some (n, r) => some (.v (.num (n : Int)), r)
           | none => none
         | none => none)
  | fuel + 1, .arrElems, cs =>
    (match parseF fuel .val cs with
     | some (.v j, r1) =>
       (match r1 with
        | ',' :: r2 =>
          (match parseF fuel .arrElems r2 with
           | some (.l xs, r) => some (.l (.cons j xs), r)
           | _ => none)
        | ']' :: r2 => some (.l (.cons j .nil), r2)
        | _ => none)
     | _ => none)
  | fuel + 1, .objFields, cs =>
    (match cs with
     | '"' :: rest =>
       (match parseStrBody rest with
        | some (k, r1) =>
          (match r1 with
           | ':' :: r2 =>
             (match parseF fuel .val r2 with
              | some (.v v, r3) =>
                (match r3 with
                 | ',' :: r4 =>
                   (match parseF fuel .objFields r4 with
                    | some (.o fs, r) => some (.o (.cons (String.mk k) v fs), r)
                    | _ => none)
                 | '}' :: r4 => some (.o (.cons (String.mk k) v .nil), r4)
                 | _ => none)
              | _ => none)
           | _ => none)
        | none => none)
     | _ => none)

/-- Parses a whole string as one JSON value (rejecting trailing input), the
model of `JSON.parse`: `none` models the thrown `SyntaxError`. -/
def Json.parse (s : String) : Option Json :=
  match parseF (s.length + 1) .val s.data with
  | some (.v j, []) => some j
  | _ => none

/-- JSON encoding of a string list (the `moodTags` field). -/
def encodeStrings : List String → JsonList
  | [] => .nil
  | s :: rest => .cons (.str s) (encodeStrings rest)

/-- JSON value of a `userFeedback` field (`null` when unset). -/
def encodeFeedback : Option UserFeedback → Json
  | none => .null
  | some .correct => .str "correct"
  | some .incorrect => .str "incorrect"

/-- JSON string of a `language` field. -/
def languageString : Language → String
  | .ja => "ja"
  | .en => "en"

/-- JSON encoding of one record, with the fields in the insertion order of
the object literal at `App.tsx` lines 148-162 (the order `JSON.stringify`
serializes them in). -/
def encodeMemory (m : Memory) : Json :=
  .obj (.cons "id" (.str m.id)
    (.cons "content" (.str m.content)
      (.cons "moodScore" (.num m.moodScore)
        (.cons "moodTags" (.arr (encodeStrings m.moodTags))
          (.cons "timestamp" (.num m.timestamp)
            (.cons "song" (.obj (.cons "title" (.str m.song.title)
                (.cons "artist" (.str m.song.artist) .nil)))
              (.cons "analysis" (.obj (.cons "inferredEmotion" (.str m.analysis.inferredEmotion)
                  (.cons "analysisText" (.str m.analysis.analysisText)
                    (.cons "moodColor" (.str m.analysis.moodColor)
                      (.cons "imagePrompt" (.str m.analysis.imagePrompt) .nil)))))
                (.cons "imageUrl" (.str m.imageUrl)
                  (.cons "userFeedback" (encodeFeedback m.userFeedback)
                    (.cons "language" (.str (languageString m.language)) .nil))))))))))

/-- JSON array of encodings of a record list. -/
def encodeMemoryList : List Memory → JsonList
  | [] => .nil
  | m :: rest => .cons (encodeMemory m) (encodeMemoryList rest)

/-- JSON encoding of the whole stored collection (what
`JSON.stringify(newMemories)` produces). -/
def encodeMemories (l : List Memory) : Json :=
  .arr (encodeMemoryList l)

/-- Reads a JSON string value. -/
def jStr : Json → Option String
  | .str s => some s
  | _ => none

/-- Reads a JSON integer value. -/
def jNum : Json → Option Int
  | .num n => some n
  | _ => none

/-- Reads a JSON array's element list. -/
def jArrElems : Json → Option JsonList
  | .arr xs => some xs
  | _ => none

/-- Specification-side reading of a JSON array of strings; inverse of
`encodeStrings`.  The source performs no such decoding (the parsed value is
adopted verbatim); the decoders exist only to express that the stored JSON
determines the record list uniquely. -/
def decodeStrings : JsonList → Option (List String)
  | .nil => some []
  | .cons j rest =>
    match jStr j, decodeStrings rest with
    | some s, some l => some (s :: l)
    | _, _ => none

/-- Specification-side reading of a `userFeedback` JSON value. -/
def decodeFeedback : Json → Option (Option UserFeedback)
  | .null => some none
  | .str s =>
    if s = "correct" then some (some .correct)
    else if s = "incorrect" then some (some .incorrect)
    else none
  | _ => none

/-- Specification-side reading of a `language` JSON value. -/
def decodeLanguage : Json → Option Language
  | .str s =>
    if s = "ja" then some .ja
    else if s = "en" then some .en
    else none
  | _ => none

/-- Specification-side reading of an encoded `song` object. -/
def decodeSong : Json → Option UserSongInput
  | .obj (.cons k1 v1 (.cons k2 v2 .nil)) =>
    if k1 = "title" ∧ k2 = "artist" then
      match jStr v1, jStr v2 with
      | some t, some a => some ⟨t, a⟩
      | _, _ => none
    else none
  | _ => none

/-- Specification-side reading of an encoded `analysis` object. -/
def decodeAnalysis : Json → Option AnalysisResult
  | .obj (.cons k1 v1 (.cons k2 v2 (.cons k3 v3 (.cons k4 v4 .nil)))) =>
    if k1 = "inferredEmotion" ∧ k2 = "analysisText" ∧ k3 = "moodColor" ∧
        k4 = "imagePrompt" then
      match jStr v1, jStr v2, jStr v3, jStr v4 with
      | some a, some b, some c, some d => some ⟨a, b, c, d⟩
      | _, _, _, _ => none
    else none
  | _ => none

/-- Specification-side reading of one encoded record; inverse of
`encodeMemory` (see `decodeStrings` for its role). -/
def decodeMemory : Json → Option Memory
  | .obj (.cons k1 v1 (.cons k2 v2 (.cons k3 v3 (.cons k4 v4 (.cons k5 v5
      (.cons k6 v6 (.cons k7 v7 (.cons k8 v8 (.cons k9 v9
        (.cons k10 v10 .nil)))))))))) =>
    if k1 = "id" ∧ k2 = "content" ∧ k3 = "moodScore" ∧ k4 = "moodTags" ∧
        k5 = "timestamp" ∧ k6 = "song" ∧ k7 = "analysis" ∧ k8 = "imageUrl" ∧
        k9 = "userFeedback" ∧ k10 = "language" then
      match jStr v1, jStr v2, jNum v3, jArrElems v4, jNum v5, decodeSong v6,
          decodeAnalysis v7, jStr v8, decodeFeedback v9, decodeLanguage v10 with
      | some id, some content, some moodScore, some tags, some timestamp,
          some song, some analysis, some imageUrl, some feedback, some lang =>
        (match decodeStrings tags with
         | some tagList =>
           some ⟨id, content, moodScore, tagList, timestamp, song, analysis,
             imageUrl, feedback, lang⟩
         | none => none)
      | _, _, _, _, _, _, _, _, _, _ => none
    else none
  | _ => none

/-- Specification-side reading of an encoded record list. -/
def decodeMemoryList : JsonList → Option (List Memory)
  | .nil => some []
  | .cons j rest =>
    match decodeMemory j, decodeMemoryList rest with
    | some m, some l => some (m :: l)
    | _, _ => none

/-- Specification-side reading of an encoded collection; inverse of
`encodeMemories`. -/
def decodeMemories : Json → Option (List Memory)
  | .arr xs => decodeMemoryList xs
  | _ => none

/-- The relation `Array.prototype.sort((a, b) => b.timestamp - a.timestamp)`
sorts by: `a` precedes `b` when `b.timestamp ≤ a.timestamp`. -/
def tsGE (a b : Memory) : Prop :=
  b.timestamp ≤ a.timestamp

instance : DecidableRel tsGE :=
  fun a b => inferInstanceAs (Decidable (b.timestamp ≤ a.timestamp))

instance : IsTotal Memory tsGE :=
  ⟨fun a b => le_total b.timestamp a.timestamp⟩

instance : IsTrans Memory tsGE :=
  ⟨fun _ _ _ h1 h2 => le_trans h2 h1⟩

/-- Model of `[...].sort((a, b) => b.timestamp - a.timestamp)` at `App.tsx`
line 164: a stable sort descending by `timestamp` (insertion sort is stable,
matching `Array.prototype.sort`). -/
def sortDesc (l : List Memory) : List Memory :=
  l.insertionSort tsGE

/-- The serialized string `saveMemories` writes to the
`music_diary_data_v1` slot (`localStorage.setItem(STORAGE_KEY,
JSON.stringify(newMemories))`, `App.tsx` line 97). -/
def saveString (l : List Memory) : String :=
  (encodeMemories l).render

/-- The load effect of `App.tsx` lines 84-93, as a function from the
persistence slot's content (`none` = key absent) to the in-memory value the
app starts with.  A present, parseable string is adopted verbatim
(`setMemories(JSON.parse(saved))` — no structural validation); an absent or
falsy slot leaves the initial `[]`, and a parse failure is caught, logged
and also leaves the initial `[]`. -/
def loadMemories (slot : Option String) : Json :=
  match slot with
  | none => .arr .nil
  | some s =>
    if s = "" then .arr .nil
    else
      match Json.parse s with
      | some j => j
      | none => .arr .nil

/-- Fallback analysis returned by `analyzeMemory`'s `catch` block
(`src/unnamed/part_001` lines 114-126). -/
def fallbackAnalysis : Language → AnalysisResult
  | .ja =>
    ⟨"解析不能",
     "申し訳ありません、分析中にエラーが発生しました。もう少し時間を置いてから試してみてください。",
     "#cbd5e1",
     "abstract minimalist geometric art, soft colors"⟩
  | .en =>
    ⟨"Analysis Failed",
     "Sorry, an error occurred during analysis. Please try again in a moment.",
     "#cbd5e1",
     "abstract minimalist geometric art, soft colors"⟩

/-- Model of `analyzeMemory` (`src/unnamed/part_001`): the provider call is
an environment outcome; on success its parsed result is returned, on any
failure the catch block substitutes `fallbackAnalysis` — the function never
throws. -/
def analyzeMemory (outcome : Option AnalysisResult) (lang : Language) : AnalysisResult :=
  outcome.getD (fallbackAnalysis lang)

/-- Model of `generateMemoryImage` (`src/unnamed/part_001` lines 129-153):
returns the data URL found in the response, or the empty string when the
call fails or yields no image — it never throws. -/
def generateMemoryImage (outcome : Option String) : String :=
  outcome.getD ""

/-- Localized generic error notice `UI_TEXT.errorMsg` (`App.tsx` line 52),
shown by `alert(t('errorMsg'))` in `handleAnalyze`'s catch block. -/
def errorMsg : Language → String
  | .ja => "エラーが発生しました。しばらくしてから再度お試しください。"
  | .en => "An error occurred. Please try again later."

/-- The input fields of the record form (`App.tsx` lines 70-75 plus the
language switch). -/
structure Inputs where
  recordDate : String
  diaryText : String
  songTitle : String
  artistName : String
  moodScore : Int
  selectedTags : List String
  language : Language
deriving DecidableEq, Repr

/-- Host-environment readings consumed by one `handleAnalyze` run:
the analysis and image provider outcomes (`none` = that call failed), the
`Date.now()` reading, the value of `new Date(year, month - 1, day).getTime()`
for the current `recordDate` (the host `Date` object's calendar arithmetic),
whether `localStorage.setItem` succeeds (`false` = it throws, e.g. quota
exceeded), and today's date string for the post-save form reset. -/
structure CreateEnv where
  analysisOutcome : Option AnalysisResult
  imageOutcome : Option String
  now : Nat
  dateMs : Int
  setItemOk : Bool
  today : String
deriving DecidableEq, Repr

/-- App-level state touched by the store operations: the in-memory list and
the persistence slot (`localStorage` content under `music_diary_data_v1`). -/
structure AppState where
  memories : List Memory
  slot : Option String
deriving DecidableEq, Repr

/-- Result of one `handleAnalyze` run: the state afterwards, the input
fields afterwards, whether an external provider call was made, and the
`alert` message surfaced (if any). -/
structure CreateResult where
  state : AppState
  inputs : Inputs
  externalCallMade : Bool
  alertMsg : Option String
deriving DecidableEq, Repr

/-- The new record constructed at `App.tsx` lines 148-162 (given that the
run reached that point). -/
def mkMemory (inp : Inputs) (env : CreateEnv) : Memory :=
  { id := natToString env.now
    content := inp.diaryText
    moodScore := inp.moodScore
    moodTags := inp.selectedTags
    timestamp := env.dateMs
    song := ⟨inp.songTitle, inp.artistName⟩
    analysis := analyzeMemory env.analysisOutcome inp.language
    imageUrl := generateMemoryImage env.imageOutcome
    userFeedback := none
    language := inp.language }

/-- Cleared form fields after a successful save (`App.tsx` lines 168-173):
today's date, empty texts, zero mood, no tags; the language switch is not
reset. -/
def clearedInputs (today : String) (lang : Language) : Inputs :=
  { recordDate := today
    diaryText := ""
    songTitle := ""
    artistName := ""
    moodScore := 0
    selectedTags := []
    language := lang }

/-- Model of `handleAnalyze` (`App.tsx` lines 126-181).  The guard at line
127 returns early when the trimmed title or artist is empty — it inspects
nothing else (in particular not `recordDate`).  Otherwise `analyzeMemory`
and `generateMemoryImage` are awaited (neither throws: each absorbs its own
failure), the record is built, and `saveMemories` first sets the in-memory
list and then writes the slot; a throwing `setItem` is the only statement in
the `try` block that can raise, and it lands in the catch block which
alerts `errorMsg` — with the in-memory list already updated and the inputs
not cleared. -/
def handleAnalyze (inp : Inputs) (env : CreateEnv) (st : AppState) : CreateResult :=
  if jsTrim inp.songTitle = "" ∨ jsTrim inp.artistName = "" then
    ⟨st, inp, false, none⟩
  else
    let newMemory := mkMemory inp env
    let updatedMemories := sortDesc (newMemory :: st.memories)
    if env.setItemOk then
      ⟨⟨updatedMemories, some (saveString updatedMemories)⟩,
        clearedInputs env.today inp.language, true, none⟩
    else
      ⟨⟨updatedMemories, st.slot⟩, inp, true, some (errorMsg inp.language)⟩

/-- Model of `deleteMemory` (`App.tsx` lines 100-103) on the list. -/
def deleteMemory (id : String) (memories : List Memory) : List Memory :=
  memories.filter (fun m => m.id ≠ id)

/-- Model of `handleFeedback` (`App.tsx` lines 183-191) on the list. -/
def handleFeedback (id : String) (isCorrect : Bool) (memories : List Memory) : List Memory :=
  memories.map (fun m =>
    if m.id = id then
      { m with userFeedback := some (if isCorrect then .correct else .incorrect) }
    else m)

/-- Model of `toggleTag` (`App.tsx` lines 116-124). -/
def toggleTag (selectedTags : List String) (tagLabel : String) : List String :=
  if tagLabel ∈ selectedTags then
    selectedTags.filter (fun t => t ≠ tagLabel)
  else if selectedTags.length < 3 then
    selectedTags ++ [tagLabel]
  else
    selectedTags

/-- One store mutation, for stating list invariants over operation
sequences. -/
inductive Op where
  | createOp (inp : Inputs) (env : CreateEnv)
  | deleteOp (id : String)
  | feedbackOp (id : String) (isCorrect : Bool)

/-- Effect of one operation on the stored list (the create case is the list
component of a `handleAnalyze` run). -/
def applyOp (l : List Memory) : Op → List Memory
  | .createOp inp env => (handleAnalyze inp env ⟨l, none⟩).state.memories
  | .deleteOp id => deleteMemory id l
  | .feedbackOp id isCorrect => handleFeedback id isCorrect l

/-- The stored list after a sequence of operations starting from the empty
list. -/
def runOps (ops : List Op) : List Memory :=
  ops.foldl applyOp []

/-- The submit guard's notion of a valid draft (`App.tsx` line 127): trimmed
title and artist both non-empty. -/
def validInputs (inp : Inputs) : Prop :=
  jsTrim inp.songTitle ≠ "" ∧ jsTrim inp.artistName ≠ ""

instance (inp : Inputs) : Decidable (validInputs inp) :=
  inferInstanceAs (Decidable (_ ∧ _))

/-- Concrete form state used by witnesses. -/
def sampleInput1 : Inputs :=
  ⟨"2024-01-01", "", "Song A", "Artist A", 0, [], .en⟩

/-- Second concrete form state used by witnesses. -/
def sampleInput2 : Inputs :=
  ⟨"2024-01-02", "", "Song B", "Artist B", 5, [], .en⟩

/-- Concrete environment: clock reading 111, record instant 1000. -/
def sampleEnv1 : CreateEnv :=
  ⟨none, none, 111, 1000, true, "2026-10-12"⟩

/-- Concrete environment: clock reading 222, record instant 2000. -/
def sampleEnv2 : CreateEnv :=
  ⟨none, none, 222, 2000, true, "2026-10-12"⟩

/-- Environment whose `Date.now()` reading collides with `sampleEnv1`'s
(both creations happen within the same millisecond). -/
def sampleEnv2Dup : CreateEnv :=
  ⟨none, none, 111, 2000, true, "2026-10-12"⟩

/-- The C3 scenario's form state: title "Fly Me to the Moon", artist
"Sample Artist", mood 30, tags ["Nostalgic"] (English session). -/
def flyMeInput : Inputs :=
  ⟨"2024-03-01", "", "Fly Me to the Moon", "Sample Artist", 30, ["Nostalgic"], .en⟩

/-- Environment for the C3 scenario: both provider calls fail. -/
def flyMeEnv : CreateEnv :=
  ⟨none, none, 333, 1700000000000, true, "2026-10-12"⟩

/-- Form state with a blank (cleared) date input but valid title/artist. -/
def clearedDateInput : Inputs :=
  ⟨"", "", "Song A", "Artist A", 0, [], .en⟩

/-- Environment for the malformed-date scenario. -/
def clearedDateEnv : CreateEnv :=
  ⟨none, none, 444, 0, true, "2026-10-12"⟩

/-- Environment whose persistence write throws (quota exceeded). -/
def quotaEnv : CreateEnv :=
  ⟨none, none, 555, 777, false, "2026-10-12"⟩

/-- Leap year rule of the proleptic Gregorian calendar (what the host `Date`
implements). -/
def isLeapYear (y : Nat) : Bool :=
  (y % 4 = 0 && y % 100 ≠ 0) || y % 400 = 0

/-- Model of `getDaysInMonth` (`App.tsx` lines 194-196,
`new Date(y, m + 1, 0).getDate()`): the day count of 0-indexed month `m` of
year `y`. -/
def getDaysInMonth (y m : Nat) : Nat :=
  match m with
  | 0 => 31
  | 1 => if isLeapYear y then 29 else 28
  | 2 => 31
  | 3 => 30
  | 4 => 31
  | 5 => 30
  | 6 => 31
  | 7 => 31
  | 8 => 30
  | 9 => 31
  | 10 => 30
  | 11 => 31
  | _ => 0

/-- Days elapsed since 0000-03-01 of the proleptic Gregorian date
`y`-`m`-`d` (month `m` is 1-indexed here), via the standard era/year-of-era
decomposition.  Valid for `y ≥ 1`, which covers the app's dates. -/
def daysFromCivil (y m d : Nat) : Nat :=
  let yAdj := if m ≤ 2 then y - 1 else y
  let era := yAdj / 400
  let yoe := yAdj % 400
  let mp := (m + 9) % 12
  let doy := (153 * mp + 2) / 5 + (d - 1)
  let doe := yoe * 365 + yoe / 4 - yoe / 100 + doy
  era * 146097 + doe

/-- Model of `Date.prototype.getDay` for the civil date `y`-`m`-`d`
(1-indexed month): weekday index with Sunday = 0.  0000-03-01 was a
Wednesday and 146097 (days per 400-year era) is a multiple of 7, so the
offset 3 calibrates the cycle. -/
def weekdayOfCivil (y m d : Nat) : Nat :=
  (daysFromCivil y m d + 3) % 7

/-- Model of `getFirstDayOfMonth` (`App.tsx` lines 198-200,
`new Date(y, m, 1).getDay()`): weekday of the first of 0-indexed month `m`. -/
def getFirstDayOfMonth (y m : Nat) : Nat :=
  weekdayOfCivil y (m + 1) 1

/-- One cell of the calendar grid: a leading blank or a day-of-month cell. -/
inductive Cell where
  | empty
  | day (d : Nat)
deriving DecidableEq, Repr

/-- Model of `renderCalendar`'s cell sequence (`App.tsx` lines 216-265): the
first loop pushes one empty cell per unit of `getFirstDayOfMonth`, the
second pushes the day cells `1 .. daysInMonth`. -/
def renderCalendar (y m : Nat) : List Cell :=
  List.replicate (getFirstDayOfMonth y m) Cell.empty ++
    (List.range (getDaysInMonth y m)).map (fun i => Cell.day (i + 1))

/-- Number of leading empty cells of a cell list. -/
def countLeadingEmpty : List Cell → Nat
  | Cell.empty :: rest => countLeadingEmpty rest + 1
  | _ => 0

/-- Value of a digit-character run appended to an accumulator (the loop
invariant of `parseDigits`). -/
def digitsVal (acc : Nat) (cs : List Char) : Nat :=
  cs.foldl (fun a c => a * 10 + (charToDigit c).getD 0) acc

/-- A character list that does not begin with a decimal digit (so a digit
run before it ends exactly there). -/
def noDigitHead : List Char → Prop
  | [] => True
  | c :: _ => charToDigit c = none

mutual
/-- Fuel bound for parsing a rendered value (one unit per nesting/element
step of `parseF`). -/
def sizeJ : Json → Nat
  | .null => 1
  | .bool _ => 1
  | .num _ => 1
  | .str _ => 1
  | .arr xs => sizeL xs + 1
  | .obj xs => sizeO xs + 1
/-- Fuel bound for parsing a rendered array tail. -/
def sizeL : JsonList → Nat
  | .nil => 0
  | .cons x tl => 1 + sizeJ x + sizeL tl
/-- Fuel bound for parsing a rendered object tail. -/
def sizeO : JsonObj → Nat
  | .nil => 0
  | .cons _ v tl => 1 + sizeJ v + sizeO tl
end

/-! ### Decimal digit lemmas -/

theorem toDigitsAux_eq : ∀ f1 f2 n, n < f1 → n < f2 → toDigitsAux f1 n = toDigitsAux f2 n := by
  intro f1
  induction f1 with
  | zero => intro f2 n h _; omega
  | succ g ih =>
    intro f2 n h1 h2
    cases f2 with
    | zero => omega
    | succ k =>
      simp only [toDigitsAux]
      by_cases h10 : n < 10
      · rw [if_pos h10, if_pos h10]
      · have hdiv : n / 10 < n := Nat.div_lt_self (by omega) (by omega)
        rw [if_neg h10, if_neg h10, ih k (n / 10) (by omega) (by omega)]

theorem natToDigits_step (n : Nat) :
    natToDigits n =
      if n < 10 then [digitCh n] else natToDigits (n / 10) ++ [digitCh (n % 10)] := by
  unfold natToDigits
  conv_lhs => rw [toDigitsAux]
  by_cases h10 : n < 10
  · rw [if_pos h10, if_pos h10]
  · have hdiv : n / 10 < n := Nat.div_lt_self (by omega) (by omega)
    rw [if_neg h10, if_neg h10,
      toDigitsAux_eq n (n / 10 + 1) (n / 10) (by omega) (by omega)]

theorem natToDigits_ne_nil (n : Nat) : natToDigits n ≠ [] := by
  rw [natToDigits_step]
  split <;> simp

theorem charToDigit_digitCh {d : Nat} (h : d < 10) : charToDigit (digitCh d) = some d := by
  interval_cases d <;> rfl

theorem natToDigits_isDigit (n : Nat) :
    ∀ c ∈ natToDigits n, (charToDigit c).isSome := by
  induction n using Nat.strong_induction_on with
  | _ n ih =>
    rw [natToDigits_step]
    by_cases h10 : n < 10
    · rw [if_pos h10]
      intro c hc
      rw [List.mem_singleton] at hc
      subst hc
      rw [charToDigit_digitCh h10]
      rfl
    · have hdiv : n / 10 < n := Nat.div_lt_self (by omega) (by omega)
      rw [if_neg h10]
      intro c hc
      rcases List.mem_append.1 hc with h1 | h1
      · exact ih (n / 10) hdiv c h1
      · rw [List.mem_singleton] at h1
        subst h1
        rw [charToDigit_digitCh (Nat.mod_lt n (by omega))]
        rfl

theorem natToDigits_head (n : Nat) :
    ∃ d t, d < 10 ∧ natToDigits n = digitCh d :: t := by
  induction n using Nat.strong_induction_on with
  | _ n ih =>
    rw [natToDigits_step]
    by_cases h10 : n < 10
    · exact ⟨n, [], h10, by rw [if_pos h10]⟩
    · have hdiv : n / 10 < n := Nat.div_lt_self (by omega) (by omega)
      obtain ⟨d, t, hd, ht⟩ := ih (n / 10) hdiv
      exact ⟨d, t ++ [digitCh (n % 10)], hd, by rw [if_neg h10, ht]; rfl⟩

theorem digitsVal_nil (acc : Nat) : digitsVal acc [] = acc := rfl

theorem digitsVal_cons (acc : Nat) (c : Char) (cs : List Char) :
    digitsVal acc (c :: cs) = digitsVal (acc * 10 + (charToDigit c).getD 0) cs := rfl

theorem digitsVal_append (acc : Nat) (xs ys : List Char) :
    digitsVal acc (xs ++ ys) = digitsVal (digitsVal acc xs) ys := by
  simp [digitsVal, List.foldl_append]

theorem digitsVal_natToDigits (n : Nat) :
    ∀ acc, digitsVal acc (natToDigits n) = acc * 10 ^ (natToDigits n).length + n := by
  induction n using Nat.strong_induction_on with
  | _ n ih =>
    intro acc
    rw [natToDigits_step]
    by_cases h10 : n < 10
    · rw [if_pos h10]
      rw [digitsVal_cons, digitsVal_nil, charToDigit_digitCh h10]
      simp [pow_succ]
    · have hdiv : n / 10 < n := Nat.div_lt_self (by omega) (by omega)
      rw [if_neg h10, digitsVal_append, ih (n / 10) hdiv acc, digitsVal_cons,
        digitsVal_nil, charToDigit_digitCh (Nat.mod_lt n (by omega))]
      simp only [Option.getD_some, List.length_append, List.length_singleton, pow_succ]
      have hmod : n / 10 * 10 + n % 10 = n := by omega
      calc (acc * 10 ^ (natToDigits (n / 10)).length + n / 10) * 10 + n % 10
          = acc * (10 ^ (natToDigits (n / 10)).length * 10) + (n / 10 * 10 + n % 10) := by ring
        _ = acc * (10 ^ (natToDigits (n / 10)).length * 10) + n := by rw [hmod]

theorem natToDigits_inj {a b : Nat} (h : natToDigits a = natToDigits b) : a = b := by
  have ha := digitsVal_natToDigits a 0
  have hb := digitsVal_natToDigits b 0
  rw [h] at ha
  rw [ha] at hb
  omega

theorem natToString_inj {a b : Nat} (h : natToString a = natToString b) : a = b := by
  apply natToDigits_inj
  have h' : (natToString a).data = (natToString b).data := by rw [h]
  simpa [natToString] using h'

/-! ### Digit-run parsing lemmas -/

theorem parseDigits_spec :
    ∀ (xs : List Char) (acc : Nat) (rest : List Char),
      (∀ c ∈ xs, (charToDigit c).isSome) → noDigitHead rest →
      parseDigits (xs ++ rest) acc = (digitsVal acc xs, rest) := by
  intro xs
  induction xs with
  | nil =>
    intro acc rest _ hrest
    cases rest with
    | nil => rfl
    | cons r t =>
      simp only [noDigitHead] at hrest
      simp [parseDigits, hrest, digitsVal_nil]
  | cons c cs ih =>
    intro acc rest hdig hrest
    have hc := hdig c (List.mem_cons_self c cs)
    obtain ⟨d, hd⟩ := Option.isSome_iff_exists.1 hc
    simp only [List.cons_append, parseDigits, hd]
    show parseDigits (cs ++ rest) (acc * 10 + d) = _
    rw [ih (acc * 10 + d) rest (fun x hx => hdig x (List.mem_cons_of_mem c hx)) hrest,
      digitsVal_cons, hd]
    rfl

theorem parseNat_natToDigits (n : Nat) (rest : List Char) (hrest : noDigitHead rest) :
    parseNat (natToDigits n ++ rest) = some (n, rest) := by
  obtain ⟨d, t, hd, ht⟩ := natToDigits_head n
  have hdig : ∀ c ∈ t, (charToDigit c).isSome := by
    intro c hc
    exact natToDigits_isDigit n c (by rw [ht]; exact List.mem_cons_of_mem _ hc)
  have hval : digitsVal d t = n := by
    have h0 := digitsVal_natToDigits n 0
    rw [ht, digitsVal_cons, charToDigit_digitCh hd] at h0
    simpa using h0
  rw [ht]
  simp only [List.cons_append, parseNat, charToDigit_digitCh hd]
  rw [parseDigits_spec t d rest hdig hrest, hval]

/-! ### String-body parsing lemmas -/

theorem parseStrBody_escape :
    ∀ (s rest : List Char), parseStrBody (escapeChars s ++ '"' :: rest) = some (s, rest) := by
  intro s
  induction s with
  | nil =>
    intro rest
    show parseStrBody ('"' :: rest) = some ([], rest)
    rw [parseStrBody.eq_def]
    simp
  | cons c cs ih =>
    intro rest
    by_cases hc : c = '"' ∨ c = '\\'
    · simp only [escapeChars, if_pos hc, List.cons_append]
      rw [parseStrBody.eq_def]
      simp only [if_neg (by decide : ¬('\\' : Char) = '"'), ih rest]
      rw [if_pos trivial]
    · simp only [escapeChars, if_neg hc]
      push_neg at hc
      simp only [List.cons_append]
      rw [parseStrBody.eq_def]
      simp only [if_neg hc.1, if_neg hc.2]
      rw [ih rest]

/-! ### Character classification and render-head lemmas -/

theorem charToDigit_some_spec {c : Char} {d : Nat} (h : charToDigit c = some d) :
    c ≠ 'n' ∧ c ≠ 't' ∧ c ≠ 'f' ∧ c ≠ '"' ∧ c ≠ '[' ∧ c ≠ '{' ∧ c ≠ '-' ∧
      c ≠ ']' ∧ c ≠ '}' ∧ c ≠ ',' := by
  refine ⟨?_, ?_, ?_, ?_, ?_, ?_, ?_, ?_, ?_, ?_⟩ <;>
    (rintro rfl; simp [charToDigit] at h)

theorem renderChars_head (j : Json) :
    ∃ c t, Json.renderChars j = c :: t ∧ c ≠ ']' ∧ c ≠ '}' := by
  cases j with
  | null => exact ⟨'n', ['u', 'l', 'l'], by rfl, by decide, by decide⟩
  | bool b =>
    cases b with
    | true => exact ⟨'t', ['r', 'u', 'e'], by rfl, by decide, by decide⟩
    | false => exact ⟨'f', ['a', 'l', 's', 'e'], by rfl, by decide, by decide⟩
  | num i =>
    by_cases hi : i < 0
    · exact ⟨'-', natToDigits i.natAbs,
        by rw [Json.renderChars, renderInt, if_pos hi], by decide, by decide⟩
    · obtain ⟨d, t, hd, ht⟩ := natToDigits_head i.natAbs
      have hspec := charToDigit_some_spec (charToDigit_digitCh hd)
      exact ⟨digitCh d, t, by rw [Json.renderChars, renderInt, if_neg hi, ht],
        hspec.2.2.2.2.2.2.2.1, hspec.2.2.2.2.2.2.2.2.1⟩
  | str s =>
    exact ⟨'"', escapeChars s.data ++ ['"'], by rw [Json.renderChars], by decide, by decide⟩
  | arr xs =>
    exact ⟨'[', JsonList.renderChars xs ++ [']'], by rw [Json.renderChars], by decide, by decide⟩
  | obj xs =>
    exact ⟨'{', JsonObj.renderChars xs ++ ['}'], by rw [Json.renderChars], by decide, by decide⟩

theorem renderCharsL_head (x : Json) (tl : JsonList) :
    ∃ c t, JsonList.renderChars (.cons x tl) = c :: t ∧ c ≠ ']' ∧ c ≠ '}' := by
  obtain ⟨c, t, ht, h1, h2⟩ := renderChars_head x
  cases tl with
  | nil => exact ⟨c, t, by rw [JsonList.renderChars, ht], h1, h2⟩
  | cons y tl2 =>
    exact ⟨c, t ++ (',' :: JsonList.renderChars (.cons y tl2)),
      by rw [JsonList.renderChars, ht]; rfl, h1, h2⟩

/-! ### Size bounds: the fuel needed by `parseF` is at most the render length -/

theorem one_le_sizeJ (j : Json) : 1 ≤ sizeJ j := by
  cases j <;> simp [sizeJ]

theorem renderInt_length_pos (i : Int) : 1 ≤ (renderInt i).length := by
  unfold renderInt
  have h := natToDigits_ne_nil i.natAbs
  have h1 : 1 ≤ (natToDigits i.natAbs).length := by
    cases hn : natToDigits i.natAbs with
    | nil => exact absurd hn h
    | cons a t => simp
  split
  · simp only [List.length_cons]
    omega
  · exact h1

mutual
theorem sizeJ_le_len : ∀ j : Json, sizeJ j ≤ (Json.renderChars j).length
  | .null => by simp [sizeJ, Json.renderChars, kwNull]
  | .bool b => by cases b <;> simp [sizeJ, Json.renderChars, kwTrue, kwFalse]
  | .num i => by
    simp only [sizeJ, Json.renderChars]
    exact renderInt_length_pos i
  | .str s => by simp [sizeJ, Json.renderChars]
  | .arr xs => by
    have h := sizeL_le_len xs
    simp only [sizeJ, Json.renderChars, List.length_cons, List.length_append,
      List.length_singleton]
    omega
  | .obj xs => by
    have h := sizeO_le_len xs
    simp only [sizeJ, Json.renderChars, List.length_cons, List.length_append,
      List.length_singleton]
    omega
theorem sizeL_le_len : ∀ xs : JsonList, sizeL xs ≤ (JsonList.renderChars xs).length + 1
  | .nil => by simp [sizeL, JsonList.renderChars]
  | .cons x .nil => by
    have h := sizeJ_le_len x
    simp only [sizeL, JsonList.renderChars]
    omega
  | .cons x (.cons y tl) => by
    have h1 := sizeJ_le_len x
    have h2 := sizeL_le_len (.cons y tl)
    simp only [sizeL] at h2 ⊢
    simp only [JsonList.renderChars, List.length_append, List.length_cons]
    omega
theorem sizeO_le_len : ∀ fs : JsonObj, sizeO fs ≤ (JsonObj.renderChars fs).length + 1
  | .nil => by simp [sizeO, JsonObj.renderChars]
  | .cons k v .nil => by
    have h := sizeJ_le_len v
    simp only [sizeO, JsonObj.renderChars, List.length_append, List.length_cons]
    omega
  | .cons k v (.cons k2 v2 tl) => by
    have h1 := sizeJ_le_len v
    have h2 := sizeO_le_len (.cons k2 v2 tl)
    simp only [sizeO] at h2 ⊢
    simp only [JsonObj.renderChars, List.length_append, List.length_cons]
    omega
end

/-! ### Parser inversion: `parseF` undoes `renderChars` -/

theorem noDigitHead_nil : noDigitHead [] := trivial

theorem noDigitHead_cons {c : Char} (t : List Char) (h : charToDigit c = none) :
    noDigitHead (c :: t) := h

theorem string_mk_data (s : String) : String.mk s.data = s := rfl

theorem parseF_inv (fuel : Nat) :
    (∀ j rest, sizeJ j ≤ fuel → noDigitHead rest →
      parseF fuel .val (Json.renderChars j ++ rest) = some (.v j, rest)) ∧
    (∀ xs rest, xs ≠ .nil → sizeL xs ≤ fuel →
      parseF fuel .arrElems (JsonList.renderChars xs ++ (']' :: rest)) = some (.l xs, rest)) ∧
    (∀ fs rest, fs ≠ .nil → sizeO fs ≤ fuel →
      parseF fuel .objFields (JsonObj.renderChars fs ++ ('}' :: rest)) = some (.o fs, rest)) := by
  induction fuel with
  | zero =>
    refine ⟨?_, ?_, ?_⟩
    · intro j rest hs _
      have := one_le_sizeJ j
      omega
    · intro xs rest hne hs
      cases xs with
      | nil => exact absurd rfl hne
      | cons x tl =>
        simp only [sizeL] at hs
        omega
    · intro fs rest hne hs
      cases fs with
      | nil => exact absurd rfl hne
      | cons k v tl =>
        simp only [sizeO] at hs
        omega
  | succ fuel ih =>
    obtain ⟨ihA, ihB, ihC⟩ := ih
    refine ⟨?_, ?_, ?_⟩
    · -- value mode
      intro j rest hs hrest
      cases j with
      | null =>
        rw [Json.renderChars]
        simp [kwNull, parseF]
      | bool b =>
        cases b with
        | true =>
          rw [Json.renderChars]
          simp [kwTrue, parseF]
        | false =>
          rw [Json.renderChars]
          simp [kwFalse, parseF]
      | num i =>
        rw [Json.renderChars]
        by_cases hi : i < 0
        · have hpn := parseNat_natToDigits i.natAbs rest hrest
          have hneg : (-(i.natAbs : Int)) = i := by omega
          rw [renderInt, if_pos hi]
          simp only [List.cons_append, parseF]
          rw [if_neg (by decide), if_neg (by decide), if_neg (by decide),
            if_neg (by decide), if_neg (by decide), if_neg (by decide),
            if_pos (by first | rfl | trivial)]
          rw [hpn]
          exact congrArg (fun z => some (PRes.v (Json.num z), rest)) hneg
        · obtain ⟨d, t, hd, ht⟩ := natToDigits_head i.natAbs
          have hcd := charToDigit_digitCh hd
          have hspec := charToDigit_some_spec hcd
          have hpn : parseNat (digitCh d :: (t ++ rest)) = some (i.natAbs, rest) := by
            have := parseNat_natToDigits i.natAbs rest hrest
            rw [ht] at this
            simpa using this
          have hcast : ((i.natAbs : Nat) : Int) = i := by omega
          rw [renderInt, if_neg hi, ht]
          simp only [List.cons_append, parseF]
          rw [if_neg hspec.1, if_neg hspec.2.1, if_neg hspec.2.2.1,
            if_neg hspec.2.2.2.1, if_neg hspec.2.2.2.2.1,
            if_neg hspec.2.2.2.2.2.1, if_neg hspec.2.2.2.2.2.2.1]
          rw [hcd, hpn]
          simp [hcast]
      | str s =>
        rw [Json.renderChars]
        simp only [List.cons_append, List.append_assoc, List.singleton_append,
          List.nil_append]
        simp only [parseF]
        rw [if_neg (by decide), if_neg (by decide), if_neg (by decide),
          if_pos (by first | rfl | trivial)]
        rw [parseStrBody_escape s.data rest]
      | arr xs =>
        cases xs with
        | nil =>
          rw [Json.renderChars, JsonList.renderChars]
          simp [parseF]
        | cons x tl =>
          have hne : JsonList.cons x tl ≠ .nil := fun h => JsonList.noConfusion h
          have hsz : sizeL (.cons x tl) ≤ fuel := by
            simp only [sizeJ] at hs
            omega
          obtain ⟨c, t, hct, hc1, _⟩ := renderCharsL_head x tl
          have hB := ihB (.cons x tl) rest hne hsz
          rw [Json.renderChars]
          simp only [List.cons_append, List.append_assoc, List.singleton_append,
            List.nil_append]
          simp only [parseF]
          rw [if_neg (by decide), if_neg (by decide), if_neg (by decide),
            if_neg (by decide), if_pos (by first | rfl | trivial)]
          rw [hct]
          simp only [List.cons_append]
          split
          · rename_i heq
            rw [List.cons.injEq] at heq
            exact absurd heq.1 hc1
          · rw [← List.cons_append, ← hct, hB]
      | obj fs =>
        cases fs with
        | nil =>
          rw [Json.renderChars, JsonObj.renderChars]
          simp [parseF]
        | cons k v tl =>
          have hne : JsonObj.cons k v tl ≠ .nil := fun h => JsonObj.noConfusion h
          have hsz : sizeO (.cons k v tl) ≤ fuel := by
            simp only [sizeJ] at hs
            omega
          have hC := ihC (.cons k v tl) rest hne hsz
          rw [Json.renderChars]
          simp only [List.cons_append, List.append_assoc, List.singleton_append,
            List.nil_append]
          simp only [parseF]
          rw [if_neg (by decide), if_neg (by decide), if_neg (by decide),
            if_neg (by decide), if_neg (by decide), if_pos (by first | rfl | trivial)]
          have hobj : ∃ t2, JsonObj.renderChars (.cons k v tl) = '"' :: t2 := by
            cases tl with
            | nil => exact ⟨_, by rw [JsonObj.renderChars]⟩
            | cons k2 v2 tl2 => exact ⟨_, by rw [JsonObj.renderChars]⟩
          obtain ⟨t2, ht2⟩ := hobj
          rw [ht2]
          simp only [List.cons_append]
          split
          · rename_i heq
            rw [List.cons.injEq] at heq
            exact absurd heq.1 (by decide)
          · rw [← List.cons_append, ← ht2, hC]
    · -- array-elements mode
      intro xs rest hne hs
      cases xs with
      | nil => exact absurd rfl hne
      | cons x tl =>
        cases tl with
        | nil =>
          have hA := ihA x (']' :: rest)
            (by simp only [sizeL] at hs; omega)
            (noDigitHead_cons _ (by decide))
          rw [JsonList.renderChars]
          simp only [parseF]
          rw [hA]
          simp
        | cons y tl2 =>
          have hA := ihA x (',' :: (JsonList.renderChars (.cons y tl2) ++ (']' :: rest)))
            (by simp only [sizeL] at hs; omega)
            (noDigitHead_cons _ (by decide))
          have hB := ihB (.cons y tl2) rest (fun h => JsonList.noConfusion h)
            (by simp only [sizeL] at hs ⊢; omega)
          rw [JsonList.renderChars]
          simp only [List.append_assoc, List.cons_append, List.nil_append]
          simp only [parseF]
          simp [hA, hB]
    · -- object-fields mode
      intro fs rest hne hs
      cases fs with
      | nil => exact absurd rfl hne
      | cons k v tl =>
        cases tl with
        | nil =>
          have hA := ihA v ('}' :: rest)
            (by simp only [sizeO] at hs; omega)
            (noDigitHead_cons _ (by decide))
          rw [JsonObj.renderChars]
          simp only [List.cons_append, List.append_assoc, List.nil_append]
          simp only [parseF]
          rw [parseStrBody_escape]
          simp [hA, string_mk_data]
        | cons k2 v2 tl2 =>
          have hA := ihA v
            (',' :: (JsonObj.renderChars (.cons k2 v2 tl2) ++ ('}' :: rest)))
            (by simp only [sizeO] at hs; omega)
            (noDigitHead_cons _ (by decide))
          have hC := ihC (.cons k2 v2 tl2) rest (fun h => JsonObj.noConfusion h)
            (by simp only [sizeO] at hs ⊢; omega)
          rw [JsonObj.renderChars]
          simp only [List.cons_append, List.append_assoc, List.nil_append]
          simp only [parseF]
          rw [parseStrBody_escape]
          simp [hA, hC, string_mk_data]

/-- Parsing a rendered value gives back the value: the `JSON.parse` model
inverts the `JSON.stringify` model. -/
theorem parse_render (j : Json) : Json.parse (Json.render j) = some j := by
  unfold Json.parse Json.render
  have hdata : (String.mk (Json.renderChars j)).data = Json.renderChars j := rfl
  have hlen : (String.mk (Json.renderChars j)).length = (Json.renderChars j).length := rfl
  rw [hdata, hlen]
  have hA := (parseF_inv ((Json.renderChars j).length + 1)).1 j []
    (by have := sizeJ_le_len j; omega) noDigitHead_nil
  rw [List.append_nil] at hA
  rw [hA]

theorem parse_empty : Json.parse "" = none := rfl

/-! ### Decoder inversion lemmas -/

theorem decodeStrings_encodeStrings (l : List String) :
    decodeStrings (encodeStrings l) = some l := by
  induction l with
  | nil => rfl
  | cons s rest ih => simp [encodeStrings, decodeStrings, jStr, ih]

theorem decodeFeedback_encodeFeedback (f : Option UserFeedback) :
    decodeFeedback (encodeFeedback f) = some f := by
  rcases f with _ | f
  · rfl
  · cases f <;> rfl

theorem decodeLanguage_languageString (lg : Language) :
    decodeLanguage (.str (languageString lg)) = some lg := by
  cases lg <;> rfl

theorem decodeSong_enc (t a : String) :
    decodeSong (.obj (.cons "title" (.str t) (.cons "artist" (.str a) .nil))) =
      some ⟨t, a⟩ := by
  rw [decodeSong]
  rw [if_pos (by exact ⟨rfl, rfl⟩)]
  rfl

theorem decodeAnalysis_enc (a b c d : String) :
    decodeAnalysis (.obj (.cons "inferredEmotion" (.str a)
      (.cons "analysisText" (.str b)
        (.cons "moodColor" (.str c)
          (.cons "imagePrompt" (.str d) .nil))))) = some ⟨a, b, c, d⟩ := by
  rw [decodeAnalysis]
  rw [if_pos (by exact ⟨rfl, rfl, rfl, rfl⟩)]
  rfl

theorem decodeMemory_encodeMemory (m : Memory) :
    decodeMemory (encodeMemory m) = some m := by
  rw [encodeMemory, decodeMemory]
  rw [if_pos (by exact ⟨rfl, rfl, rfl, rfl, rfl, rfl, rfl, rfl, rfl, rfl⟩)]
  rw [decodeSong_enc, decodeAnalysis_enc]
  simp [jStr, jNum, jArrElems, decodeStrings_encodeStrings,
    decodeFeedback_encodeFeedback, decodeLanguage_languageString]

theorem decodeMemoryList_encodeMemoryList (l : List Memory) :
    decodeMemoryList (encodeMemoryList l) = some l := by
  induction l with
  | nil => rfl
  | cons m rest ih =>
    simp [encodeMemoryList, decodeMemoryList, decodeMemory_encodeMemory, ih]

theorem decodeMemories_encodeMemories (l : List Memory) :
    decodeMemories (encodeMemories l) = some l := by
  simp [encodeMemories, decodeMemories, decodeMemoryList_encodeMemoryList]

/-! ### Persistence lemmas -/

theorem saveString_ne_empty (l : List Memory) : saveString l ≠ "" := by
  intro h
  have hd : (saveString l).data = ("" : String).data := by rw [h]
  have : (saveString l).data = '[' :: (JsonList.renderChars (encodeMemoryList l) ++ [']']) := by
    simp [saveString, Json.render, encodeMemories, Json.renderChars]
  rw [this] at hd
  exact List.noConfusion hd

theorem loadMemories_parsed {s : String} {j : Json}
    (hne : s ≠ "") (h : Json.parse s = some j) :
    loadMemories (some s) = j := by
  simp [loadMemories, hne, h]

/-! ### Store operation lemmas -/

theorem mkMemory_timestamp (inp : Inputs) (env : CreateEnv) :
    (mkMemory inp env).timestamp = env.dateMs := rfl

theorem mkMemory_id (inp : Inputs) (env : CreateEnv) :
    (mkMemory inp env).id = natToString env.now := rfl

theorem validInputs_not_guard {inp : Inputs} (h : validInputs inp) :
    ¬(jsTrim inp.songTitle = "" ∨ jsTrim inp.artistName = "") := by
  rcases h with ⟨h1, h2⟩
  rintro (hc | hc)
  · exact h1 hc
  · exact h2 hc

theorem handleAnalyze_memories (inp : Inputs) (env : CreateEnv) (st : AppState) :
    (handleAnalyze inp env st).state.memories =
      if jsTrim inp.songTitle = "" ∨ jsTrim inp.artistName = "" then st.memories
      else sortDesc (mkMemory inp env :: st.memories) := by
  by_cases h : jsTrim inp.songTitle = "" ∨ jsTrim inp.artistName = ""
  · simp [handleAnalyze, h]
  · by_cases hset : env.setItemOk <;> simp [handleAnalyze, h, hset]

theorem applyOp_create {inp : Inputs} (env : CreateEnv) (l : List Memory)
    (h : validInputs inp) :
    applyOp l (.createOp inp env) = sortDesc (mkMemory inp env :: l) := by
  rw [applyOp, handleAnalyze_memories, if_neg (validInputs_not_guard h)]

theorem feedback_map_timestamp (id : String) (b : Bool) (m : Memory) :
    ((fun m : Memory =>
      if m.id = id then
        { m with userFeedback := some (if b then .correct else .incorrect) }
      else m) m).timestamp = m.timestamp := by
  by_cases h : m.id = id <;> simp [h]

theorem applyOp_pairwise {l : List Memory} (h : l.Pairwise tsGE) (op : Op) :
    (applyOp l op).Pairwise tsGE := by
  cases op with
  | createOp inp env =>
    rw [applyOp, handleAnalyze_memories]
    split
    · exact h
    · exact List.sorted_insertionSort tsGE _
  | deleteOp id => exact h.filter _
  | feedbackOp id b =>
    rw [applyOp, handleFeedback]
    refine List.pairwise_map.mpr (h.imp ?_)
    intro a b' hab
    show tsGE _ _
    unfold tsGE
    rw [feedback_map_timestamp, feedback_map_timestamp]
    exact hab

/-! ### Tag toggle lemmas -/

theorem toggleTag_length {l : List String} (t : String) (h : l.length ≤ 3) :
    (toggleTag l t).length ≤ 3 := by
  unfold toggleTag
  split
  · exact le_trans (List.length_filter_le _ _) h
  · split
    · rename_i hlen
      simp only [List.length_append, List.length_singleton]
      omega
    · exact h

theorem foldl_toggleTag_length :
    ∀ (ts : List String) (l : List String), l.length ≤ 3 →
      (ts.foldl toggleTag l).length ≤ 3 := by
  intro ts
  induction ts with
  | nil => intro l h; exact h
  | cons t ts ih => intro l h; exact ih _ (toggleTag_length t h)

/-! ### Calendar lemmas -/

theorem countLeadingEmpty_replicate (k : Nat) (l : List Cell)
    (h : l = [] ∨ ∃ d t, l = Cell.day d :: t) :
    countLeadingEmpty (List.replicate k Cell.empty ++ l) = k := by
  induction k with
  | zero =>
    rcases h with h | ⟨d, t, h⟩ <;> subst h <;> rfl
  | succ k ih =>
    rw [List.replicate_succ, List.cons_append, countLeadingEmpty, ih]

/-! ### Claim theorems -/

/-- C1: for every sequence of create, delete and setFeedback operations
applied to a memory list that starts empty, the resulting list is sorted by
timestamp in descending order; in particular, after creating two records
with timestamps T1 < T2, the T2 record precedes the T1 record. -/
theorem C1_sorted_descending :
    (∀ ops : List Op,
      (runOps ops).Pairwise (fun a b : Memory => b.timestamp ≤ a.timestamp)) ∧
    (∀ (inp1 : Inputs) (env1 : CreateEnv) (inp2 : Inputs) (env2 : CreateEnv),
      validInputs inp1 → validInputs inp2 → env1.dateMs < env2.dateMs →
      runOps [.createOp inp1 env1, .createOp inp2 env2] =
        [mkMemory inp2 env2, mkMemory inp1 env1]) := by
  constructor
  · intro ops
    have main : ∀ (ops : List Op) (l : List Memory), l.Pairwise tsGE →
        (ops.foldl applyOp l).Pairwise tsGE := by
      intro ops
      induction ops with
      | nil => exact fun _ h => h
      | cons op ops ih => exact fun _ h => ih _ (applyOp_pairwise h op)
    exact main ops [] List.Pairwise.nil
  · intro inp1 env1 inp2 env2 h1 h2 hlt
    show applyOp (applyOp [] (.createOp inp1 env1)) (.createOp inp2 env2) = _
    rw [applyOp_create env1 [] h1, applyOp_create env2 _ h2]
    have e1 : sortDesc [mkMemory inp1 env1] = [mkMemory inp1 env1] := rfl
    rw [e1]
    have hall : ∀ b ∈ [mkMemory inp1 env1], tsGE (mkMemory inp2 env2) b := by
      intro b hb
      rw [List.mem_singleton] at hb
      subst hb
      show (mkMemory inp1 env1).timestamp ≤ (mkMemory inp2 env2).timestamp
      rw [mkMemory_timestamp, mkMemory_timestamp]
      omega
    show List.insertionSort tsGE _ = _
    rw [List.insertionSort_cons tsGE hall]
    rfl

theorem C1_sorted_descending_witness :
    runOps [.createOp sampleInput1 sampleEnv1, .createOp sampleInput2 sampleEnv2] =
      [mkMemory sampleInput2 sampleEnv2, mkMemory sampleInput1 sampleEnv1] :=
  C1_sorted_descending.2 sampleInput1 sampleEnv1 sampleInput2 sampleEnv2
    (by decide) (by decide) (by decide)

/-- C2 (counterexample): two valid creations within the same millisecond
(both `Date.now()` readings are 111) produce two distinct records carrying
the same id, refuting the claim that any two records created in one session
have distinct ids. -/
theorem C2_duplicate_id_counterexample :
    validInputs sampleInput1 ∧ validInputs sampleInput2 ∧
    runOps [.createOp sampleInput1 sampleEnv1, .createOp sampleInput2 sampleEnv2Dup] =
      [mkMemory sampleInput2 sampleEnv2Dup, mkMemory sampleInput1 sampleEnv1] ∧
    mkMemory sampleInput2 sampleEnv2Dup ≠ mkMemory sampleInput1 sampleEnv1 ∧
    (mkMemory sampleInput2 sampleEnv2Dup).id = (mkMemory sampleInput1 sampleEnv1).id :=
  ⟨by decide, by decide, by decide, by decide, by decide⟩

/-- C2 (amended): two creations whose `Date.now()` readings differ yield
records with distinct ids (the id is the decimal rendering of that reading,
which is injective). -/
theorem C2_distinct_ids_of_distinct_clock (inp1 : Inputs) (env1 : CreateEnv)
    (inp2 : Inputs) (env2 : CreateEnv) (h : env1.now ≠ env2.now) :
    (mkMemory inp1 env1).id ≠ (mkMemory inp2 env2).id := by
  rw [mkMemory_id, mkMemory_id]
  exact fun hid => h (natToString_inj hid)

theorem C2_distinct_ids_witness :
    (mkMemory sampleInput1 sampleEnv1).id ≠ (mkMemory sampleInput2 sampleEnv2).id :=
  C2_distinct_ids_of_distinct_clock sampleInput1 sampleEnv1 sampleInput2 sampleEnv2
    (by decide)

/-- C3: when the analysis call fails (and image generation also fails), a
valid creation still completes: the stored record carries exactly the fixed
fallback analysis payload and an empty imageUrl, and it sits at the head of
the list whenever its timestamp is the most recent. -/
theorem C3_fallback_creation (inp : Inputs) (env : CreateEnv) (st : AppState)
    (hv : validInputs inp) (ha : env.analysisOutcome = none)
    (hi : env.imageOutcome = none)
    (hmax : ∀ m ∈ st.memories, m.timestamp ≤ env.dateMs) :
    (handleAnalyze inp env st).state.memories =
      mkMemory inp env :: sortDesc st.memories ∧
    (mkMemory inp env).analysis = fallbackAnalysis inp.language ∧
    (mkMemory inp env).imageUrl = "" := by
  refine ⟨?_, ?_, ?_⟩
  · rw [handleAnalyze_memories, if_neg (validInputs_not_guard hv)]
    have hall : ∀ b ∈ st.memories, tsGE (mkMemory inp env) b := by
      intro b hb
      show b.timestamp ≤ (mkMemory inp env).timestamp
      rw [mkMemory_timestamp]
      exact hmax b hb
    show List.insertionSort tsGE _ = _
    rw [List.insertionSort_cons tsGE hall]
    rfl
  · simp [mkMemory, analyzeMemory, ha]
  · simp [mkMemory, generateMemoryImage, hi]

theorem C3_fallback_creation_witness :
    (handleAnalyze flyMeInput flyMeEnv ⟨[], none⟩).state.memories =
      mkMemory flyMeInput flyMeEnv :: sortDesc [] ∧
    (mkMemory flyMeInput flyMeEnv).analysis.inferredEmotion = "Analysis Failed" ∧
    (mkMemory flyMeInput flyMeEnv).imageUrl = "" := by
  have h := C3_fallback_creation flyMeInput flyMeEnv ⟨[], none⟩ (by decide) rfl rfl
    (by intro m hm; exact absurd hm (List.not_mem_nil m))
  exact ⟨h.1, by rw [h.2.1]; rfl, h.2.2⟩

/-- C4: toggling a selected tag removes it; toggling a new tag appends it
when fewer than 3 are selected and is a no-op when 3 are selected; hence
the selection never exceeds 3 tags from the empty start, and toggling 4
distinct tags leaves exactly the first 3 selected. -/
theorem C4_tag_toggle :
    (∀ (l : List String) (t : String), t ∈ l →
      toggleTag l t = l.filter (fun x => x ≠ t)) ∧
    (∀ (l : List String) (t : String), t ∉ l → l.length < 3 →
      toggleTag l t = l ++ [t]) ∧
    (∀ (l : List String) (t : String), t ∉ l → l.length = 3 →
      toggleTag l t = l) ∧
    (∀ ts : List String, (ts.foldl toggleTag []).length ≤ 3) ∧
    (∀ t1 t2 t3 t4 : String, t1 ≠ t2 → t1 ≠ t3 → t1 ≠ t4 → t2 ≠ t3 → t2 ≠ t4 →
      t3 ≠ t4 → [t1, t2, t3, t4].foldl toggleTag [] = [t1, t2, t3]) := by
  refine ⟨?_, ?_, ?_, ?_, ?_⟩
  · intro l t h
    simp [toggleTag, h]
  · intro l t h hlen
    simp [toggleTag, h, hlen]
  · intro l t h hlen
    simp [toggleTag, h, hlen]
  · intro ts
    exact foldl_toggleTag_length ts [] (by simp)
  · intro t1 t2 t3 t4 h12 h13 h14 h23 h24 h34
    simp [toggleTag, Ne.symm h12, Ne.symm h13, Ne.symm h14, Ne.symm h23,
      Ne.symm h24, Ne.symm h34]

theorem C4_tag_toggle_witness :
    [("a" : String), "b", "c", "d"].foldl toggleTag [] = ["a", "b", "c"] :=
  C4_tag_toggle.2.2.2.2 "a" "b" "c" "d" (by decide) (by decide) (by decide)
    (by decide) (by decide) (by decide)

/-- C5 (counterexample): a submission with a blank (malformed) date string
but valid title and artist is NOT blocked: the creation sequence proceeds
to the external provider call and a record reaches the store, refuting the
claim that a malformed date stops the sequence before any external call. -/
theorem C5_malformed_date_counterexample :
    clearedDateInput.recordDate = "" ∧ validInputs clearedDateInput ∧
    (handleAnalyze clearedDateInput clearedDateEnv ⟨[], none⟩).externalCallMade = true ∧
    (handleAnalyze clearedDateInput clearedDateEnv ⟨[], none⟩).state.memories =
      [mkMemory clearedDateInput clearedDateEnv] :=
  ⟨rfl, by decide, by decide, by decide⟩

/-- C5 (amended): only a blank (after trimming) song title or artist blocks
the creation sequence; in that case it stops before any external provider
call, no record reaches the store, the persistence slot is untouched, the
inputs are left as they were and no error is surfaced.  The date string is
never validated. -/
theorem C5_blank_guard (inp : Inputs) (env : CreateEnv) (st : AppState)
    (h : jsTrim inp.songTitle = "" ∨ jsTrim inp.artistName = "") :
    handleAnalyze inp env st = ⟨st, inp, false, none⟩ := by
  simp [handleAnalyze, h]

theorem C5_blank_guard_witness :
    handleAnalyze (clearedInputs "2026-10-12" .en) sampleEnv1 ⟨[], none⟩ =
      ⟨⟨[], none⟩, clearedInputs "2026-10-12" .en, false, none⟩ :=
  C5_blank_guard _ _ _ (by decide)

/-- C6 (counterexample): when the persistence write throws during a valid
creation, the catch block surfaces the single generic localized notice and
nothing new is persisted, but the in-memory list is NOT left untouched: it
already holds the new record, refuting the claim that the memory list in
memory holds no record from the attempt. -/
theorem C6_not_rolled_back_counterexample :
    validInputs sampleInput1 ∧ quotaEnv.setItemOk = false ∧
    (handleAnalyze sampleInput1 quotaEnv ⟨[], none⟩).alertMsg = some (errorMsg .en) ∧
    (handleAnalyze sampleInput1 quotaEnv ⟨[], none⟩).state.slot = none ∧
    (handleAnalyze sampleInput1 quotaEnv ⟨[], none⟩).state.memories =
      [mkMemory sampleInput1 quotaEnv] :=
  ⟨by decide, rfl, by decide, by decide, by decide⟩

/-- C6 (amended): if the persistence write throws during a valid creation
(the only unexpected-exception site in the try block), the attempt surfaces
exactly one generic localized error notice and the persistence slot is left
untouched, but the in-memory list is not rolled back: it already contains
the new record (the source updates the state before writing the slot). -/
theorem C6_unexpected_failure (inp : Inputs) (env : CreateEnv) (st : AppState)
    (hv : validInputs inp) (hfail : env.setItemOk = false) :
    handleAnalyze inp env st =
      ⟨⟨sortDesc (mkMemory inp env :: st.memories), st.slot⟩, inp, true,
        some (errorMsg inp.language)⟩ := by
  simp [handleAnalyze, validInputs_not_guard hv, hfail]

theorem C6_unexpected_failure_witness :
    handleAnalyze sampleInput1 quotaEnv ⟨[], none⟩ =
      ⟨⟨sortDesc [mkMemory sampleInput1 quotaEnv], none⟩, sampleInput1, true,
        some (errorMsg .en)⟩ :=
  C6_unexpected_failure sampleInput1 quotaEnv ⟨[], none⟩ (by decide) rfl

/-- C7: serializing any memory list to the persistence slot and loading it
back yields an equal list: the loaded JSON is exactly the encoding of the
list, and that encoding determines the list (same records, same order). -/
theorem C7_persistence_roundtrip (l : List Memory) :
    loadMemories (some (saveString l)) = encodeMemories l ∧
    decodeMemories (encodeMemories l) = some l :=
  ⟨loadMemories_parsed (saveString_ne_empty l) (parse_render _),
    decodeMemories_encodeMemories l⟩

/-- C8: on process start, load yields the empty list when the persistence
slot is absent, and content that cannot be parsed fails soft to the empty
list; `loadMemories` is a total function, so startup never crashes. -/
theorem C8_load_fail_soft :
    loadMemories none = Json.arr .nil ∧
    (∀ s : String, Json.parse s = none → loadMemories (some s) = Json.arr .nil) := by
  refine ⟨rfl, ?_⟩
  intro s h
  by_cases hs : s = ""
  · simp [loadMemories, hs]
  · simp [loadMemories, hs, h]

theorem C8_load_fail_soft_witness :
    Json.parse (String.mk ['\x7b']) = none ∧
    loadMemories (some (String.mk ['\x7b'])) = Json.arr .nil :=
  ⟨rfl, C8_load_fail_soft.2 _ rfl⟩

/-- C9: the calendar grid places exactly k leading empty cells before day
1's cell, where k is the weekday index (Sunday = 0) of the first day of the
month; for January 2025 (a 31-day month whose 1st falls on a Wednesday)
exactly 3 leading empty cells precede day 1. -/
theorem C9_calendar_offset :
    (∀ y m : Nat, countLeadingEmpty (renderCalendar y m) = getFirstDayOfMonth y m) ∧
    (getDaysInMonth 2025 0 = 31 ∧ getFirstDayOfMonth 2025 0 = 3 ∧
      countLeadingEmpty (renderCalendar 2025 0) = 3) := by
  constructor
  · intro y m
    rw [renderCalendar]
    apply countLeadingEmpty_replicate
    cases hn : getDaysInMonth y m with
    | zero => left; rfl
    | succ k =>
      right
      rw [List.range_succ_eq_map]
      exact ⟨1, _, rfl⟩
  · exact ⟨by decide, by decide, by decide⟩

/-- C10: load performs no structural validation beyond parsing: every
stored string that parses as JSON — even one that is not an array of
records — is adopted verbatim as the in-memory value; only a parse failure
(or an absent/empty slot) triggers the empty-list fallback. -/
theorem C10_load_adopts_verbatim (s : String) (j : Json)
    (h : Json.parse s = some j) : loadMemories (some s) = j := by
  by_cases hs : s = ""
  · subst hs
    rw [parse_empty] at h
    exact Option.noConfusion h
  · simp [loadMemories, hs, h]

theorem C10_load_adopts_verbatim_witness :
    Json.parse (String.mk ['5']) = some (Json.num 5) ∧
    loadMemories (some (String.mk ['5'])) = Json.num 5 :=
  ⟨rfl, C10_load_adopts_verbatim _ _ rfl⟩

end MusicDiary
